import Mathlib

/-! Shallow embedding of the transaction-processing engine in
`src/src/main.rs`.

The Rust program keeps a `State` of two `BTreeMap`s: `clients` (account id to
balances) and `transactions` (transaction id to recorded deposit).  We model
each `BTreeMap` as an association list sorted by key in strictly ascending
order, with `lookupA` and `insertA` mirroring `BTreeMap` lookup and insert.
`rust_decimal::Decimal` (exact decimal arithmetic) is modelled by `ℚ`;
`Decimal::is_sign_negative` on a subtraction result becomes `< 0`.
`u16`/`u32` identifiers are modelled by `ℕ` (no arithmetic is performed on
them, so their bounded range is irrelevant to the claims).
`handle_transaction` in the source returns `anyhow::Result<()>` but every
path returns `Ok(())`; it is embedded as the pure state transformer.
-/

abbrev ClientId := Nat

abbrev TransactionId := Nat

/-- Mirrors `struct Client { available, held: Decimal, locked: bool }`,
whose derived Default gives zero balances and unlocked. -/
structure Client where
  available : ℚ := 0
  held : ℚ := 0
  locked : Bool := false
deriving DecidableEq, Repr

/-- Mirrors `struct Transaction { amount: Decimal, disputed: bool }` with
default zero amount and undisputed. -/
structure Transaction where
  amount : ℚ := 0
  disputed : Bool := false
deriving DecidableEq, Repr

/-- Mirrors `enum TransactionKind`. -/
inductive TransactionKind where
  | Deposit
  | Withdrawal
  | Dispute
  | Resolve
  | Chargeback
deriving DecidableEq, Repr

/-- Mirrors `struct InputRow { kind, client_id, txn_id, amount }`. -/
structure InputRow where
  kind : TransactionKind
  client_id : ClientId
  txn_id : TransactionId
  amount : ℚ
deriving DecidableEq, Repr

/-- Mirrors `struct State { clients: BTreeMap<ClientId, Client>,
transactions: BTreeMap<TransactionId, Transaction> }`, each map as a
key-sorted association list. -/
structure State where
  clients : List (ClientId × Client) := []
  transactions : List (TransactionId × Transaction) := []
deriving DecidableEq, Repr

/-- Mirrors `struct OutputRow` serialized by `write_output`. -/
structure OutputRow where
  client : ClientId
  available : ℚ
  held : ℚ
  total : ℚ
  locked : Bool
deriving DecidableEq, Repr

/-- Association-list model of `BTreeMap` lookup. -/
def lookupA {α : Type} (k : Nat) : List (Nat × α) → Option α
  | [] => none
  | (k', v) :: rest => if k = k' then some v else lookupA k rest

/-- Association-list model of `BTreeMap` insert: replaces the value at an
existing key, otherwise inserts keeping ascending key order. -/
def insertA {α : Type} (k : Nat) (v : α) : List (Nat × α) → List (Nat × α)
  | [] => [(k, v)]
  | (k', v') :: rest =>
    if k < k' then (k, v) :: (k', v') :: rest
    else if k = k' then (k, v) :: rest
    else (k', v') :: insertA k v rest

/-- The view of an account used by the program: the stored balances if the
client id is present, else the `Default` (zero balances, unlocked) that
`entry(..).or_default()` would create. -/
def getClient (s : State) (c : ClientId) : Client :=
  (lookupA c s.clients).getD {}

/-- Embedding of `handle_transaction` (src/src/main.rs lines 103-167).
The client entry is created (with `Default`) as soon as it is referenced,
before the per-kind match, exactly as `state.clients.entry(..).or_default()`
does; the transaction entry is only materialised by a `Deposit`. -/
def handle_transaction (s : State) (input : InputRow) : State :=
  let client := getClient s input.client_id
  match input.kind with
  | TransactionKind.Deposit =>
    if client.locked then
      { s with clients :=
          insertA input.client_id client s.clients }
    else
      let txn := (lookupA input.txn_id s.transactions).getD {}
      { clients := insertA input.client_id
          { client with available := client.available + input.amount } s.clients,
        transactions := insertA input.txn_id
          { txn with amount := input.amount } s.transactions }
  | TransactionKind.Withdrawal =>
    if client.locked then
      { s with clients := insertA input.client_id client s.clients }
    else
      let diff := client.available - input.amount
      if diff < 0 then
        { s with clients := insertA input.client_id client s.clients }
      else
        { s with clients :=
            insertA input.client_id { client with available := diff } s.clients }
  | TransactionKind.Dispute =>
    match lookupA input.txn_id s.transactions with
    | some txn =>
      if !client.locked && !txn.disputed then
        { clients := insertA input.client_id
            { client with held := client.held + txn.amount,
                          available := client.available - txn.amount } s.clients,
          transactions := insertA input.txn_id
            { txn with disputed := true } s.transactions }
      else
        { s with clients := insertA input.client_id client s.clients }
    | none => { s with clients := insertA input.client_id client s.clients }
  | TransactionKind.Resolve =>
    match lookupA input.txn_id s.transactions with
    | some txn =>
      if !client.locked && txn.disputed then
        { clients := insertA input.client_id
            { client with held := client.held - txn.amount,
                          available := client.available + txn.amount } s.clients,
          transactions := insertA input.txn_id
            { txn with disputed := false } s.transactions }
      else
        { s with clients := insertA input.client_id client s.clients }
    | none => { s with clients := insertA input.client_id client s.clients }
  | TransactionKind.Chargeback =>
    match lookupA input.txn_id s.transactions with
    | some txn =>
      if !client.locked && txn.disputed then
        let chargedBack :=
          { client with held := client.held - txn.amount, locked := true }
        { s with clients := insertA input.client_id chargedBack s.clients }
      else
        { s with clients := insertA input.client_id client s.clients }
    | none => { s with clients := insertA input.client_id client s.clients }

/-- Folds the event stream through `handle_transaction`, as the loop in
`process_input` does (rows are fed one at a time, in stream order). -/
def process (s : State) : List InputRow → State
  | [] => s
  | r :: rs => process (handle_transaction s r) rs

/-- Embedding of `write_output`: one `OutputRow` per entry of the `clients`
map, in map (key) order, with `total` computed as `available + held` at
output time. -/
def write_output (s : State) : List OutputRow :=
  s.clients.map (fun p =>
    { client := p.1,
      available := p.2.available,
      held := p.2.held,
      total := p.2.available + p.2.held,
      locked := p.2.locked })

/-! Lemmas about the association-list map model. -/

theorem lookupA_insertA_self {α : Type} (k : Nat) (v : α) (l : List (Nat × α)) :
    lookupA k (insertA k v l) = some v := by
  induction l with
  | nil => simp [insertA, lookupA]
  | cons p rest ih =>
    obtain ⟨k', v'⟩ := p
    by_cases h1 : k < k'
    · simp [insertA, h1, lookupA]
    · by_cases h2 : k = k'
      · simp [insertA, h1, h2, lookupA]
      · simp [insertA, h1, h2, lookupA, ih]

theorem lookupA_insertA_ne {α : Type} (k k' : Nat) (v : α) (l : List (Nat × α))
    (h : k ≠ k') : lookupA k (insertA k' v l) = lookupA k l := by
  induction l with
  | nil => simp [insertA, lookupA, h]
  | cons p rest ih =>
    obtain ⟨k'', v''⟩ := p
    by_cases h1 : k' < k''
    · simp [insertA, h1, lookupA, h]
    · by_cases h2 : k' = k''
      · subst h2
        simp [insertA, h1, lookupA, h]
      · simp [insertA, h1, h2, lookupA, ih]

theorem lookupA_isSome_iff {α : Type} (k : Nat) (l : List (Nat × α)) :
    (lookupA k l).isSome = true ↔ ∃ p ∈ l, p.1 = k := by
  induction l with
  | nil => simp [lookupA]
  | cons p rest ih =>
    obtain ⟨k', v'⟩ := p
    by_cases h : k = k'
    · subst h
      simp [lookupA]
    · simp [lookupA, h, Ne.symm h, ih]

theorem mem_insertA {α : Type} (k : Nat) (v : α) (l : List (Nat × α))
    (p : Nat × α) (hp : p ∈ insertA k v l) : p = (k, v) ∨ p ∈ l := by
  induction l with
  | nil => simpa [insertA] using hp
  | cons q rest ih =>
    obtain ⟨k', v'⟩ := q
    by_cases h1 : k < k'
    · simp only [insertA, if_pos h1, List.mem_cons] at hp
      simp only [List.mem_cons]
      tauto
    · by_cases h2 : k = k'
      · simp only [insertA, if_neg h1, if_pos h2, List.mem_cons] at hp
        simp only [List.mem_cons]
        tauto
      · simp only [insertA, if_neg h1, if_neg h2, List.mem_cons] at hp
        simp only [List.mem_cons]
        rcases hp with h | h
        · tauto
        · rcases ih h with h' | h' <;> tauto

/-- Keys of the association list are in strictly ascending order (the
`BTreeMap` representation invariant). -/
def keysSorted {α : Type} (l : List (Nat × α)) : Prop :=
  List.Pairwise (fun p q => p.1 < q.1) l

theorem insertA_keysSorted {α : Type} (k : Nat) (v : α) (l : List (Nat × α))
    (hl : keysSorted l) : keysSorted (insertA k v l) := by
  induction l with
  | nil => simp [insertA, keysSorted]
  | cons q rest ih =>
    obtain ⟨k', v'⟩ := q
    rw [keysSorted, List.pairwise_cons] at hl
    obtain ⟨hk', hrest⟩ := hl
    by_cases h1 : k < k'
    · rw [keysSorted]
      simp only [insertA, if_pos h1]
      refine List.Pairwise.cons ?_ (List.Pairwise.cons hk' hrest)
      intro p hp
      rcases List.mem_cons.mp hp with h | h
      · simpa [h] using h1
      · exact lt_trans h1 (hk' p h)
    · by_cases h2 : k = k'
      · rw [keysSorted]
        simp only [insertA, if_neg h1, if_pos h2]
        refine List.Pairwise.cons ?_ hrest
        intro p hp
        simpa [h2] using hk' p hp
      · rw [keysSorted]
        simp only [insertA, if_neg h1, if_neg h2]
        refine List.Pairwise.cons ?_ (ih hrest)
        intro p hp
        rcases mem_insertA k v rest p hp with h | h
        · have hlt : k' < k := by omega
          simpa [h] using hlt
        · exact hk' p h

/-! Shape and frame lemmas about `handle_transaction`. -/

theorem handle_clients_shape (s : State) (r : InputRow) :
    ∃ v, (handle_transaction s r).clients = insertA r.client_id v s.clients := by
  obtain ⟨k, c, t, a⟩ := r
  cases k <;> simp only [handle_transaction] <;> repeat' split
  all_goals exact ⟨_, rfl⟩

theorem handle_transactions_shape (s : State) (r : InputRow) :
    (handle_transaction s r).transactions = s.transactions ∨
      ∃ v, (handle_transaction s r).transactions =
        insertA r.txn_id v s.transactions := by
  obtain ⟨k, c, t, a⟩ := r
  cases k <;> simp only [handle_transaction] <;> repeat' split
  all_goals first
    | exact Or.inl rfl
    | exact Or.inr ⟨_, rfl⟩

theorem getClient_handle_ne (s : State) (r : InputRow) (c : ClientId)
    (h : c ≠ r.client_id) :
    getClient (handle_transaction s r) c = getClient s c := by
  obtain ⟨v, hv⟩ := handle_clients_shape s r
  unfold getClient
  rw [hv, lookupA_insertA_ne _ _ _ _ h]

theorem lookupA_handle_txn_ne (s : State) (r : InputRow) (t : TransactionId)
    (h : t ≠ r.txn_id) :
    lookupA t (handle_transaction s r).transactions = lookupA t s.transactions := by
  rcases handle_transactions_shape s r with h1 | ⟨v, hv⟩
  · rw [h1]
  · rw [hv, lookupA_insertA_ne _ _ _ _ h]

theorem getClient_insertA_self (s : State) (c : ClientId) (v : Client)
    (l : List (TransactionId × Transaction)) :
    getClient ⟨insertA c v s.clients, l⟩ c = v := by
  unfold getClient
  rw [show (State.mk (insertA c v s.clients) l).clients = insertA c v s.clients from rfl]
  rw [lookupA_insertA_self]
  rfl

theorem getClient_handle_locked (s : State) (r : InputRow)
    (h : (getClient s r.client_id).locked = true) :
    getClient (handle_transaction s r) r.client_id = getClient s r.client_id := by
  obtain ⟨k, c, t, a⟩ := r
  simp only at h
  cases k <;> simp only [handle_transaction, h]
  case Deposit =>
    simp only [if_true]
    exact getClient_insertA_self s c _ _
  case Withdrawal =>
    simp only [if_true]
    exact getClient_insertA_self s c _ _
  case Dispute =>
    cases hl : lookupA t s.transactions with
    | none => exact getClient_insertA_self s c _ _
    | some txn =>
      simp only [Bool.not_true, Bool.false_and, Bool.false_eq_true, if_false]
      exact getClient_insertA_self s c _ _
  case Resolve =>
    cases hl : lookupA t s.transactions with
    | none => exact getClient_insertA_self s c _ _
    | some txn =>
      simp only [Bool.not_true, Bool.false_and, Bool.false_eq_true, if_false]
      exact getClient_insertA_self s c _ _
  case Chargeback =>
    cases hl : lookupA t s.transactions with
    | none => exact getClient_insertA_self s c _ _
    | some txn =>
      simp only [Bool.not_true, Bool.false_and, Bool.false_eq_true, if_false]
      exact getClient_insertA_self s c _ _

theorem getClient_insert_same (s : State) (c : ClientId)
    (l : List (TransactionId × Transaction)) (c' : ClientId) :
    getClient ⟨insertA c (getClient s c) s.clients, l⟩ c' = getClient s c' := by
  by_cases h : c' = c
  · subst h
    exact getClient_insertA_self s _ _ _
  · unfold getClient
    simp only
    rw [lookupA_insertA_ne _ _ _ _ h]

/-! Theorems settling the claims. -/

/-- C1, counterexample: depositing twice under the same transaction id does
not leave the first record in place — after `deposit(1,1,5)` then
`deposit(1,1,7)` the stored record's amount is `7`, not the original `5`. -/
theorem C1_counterexample :
    lookupA 1 (process ⟨[], []⟩ [⟨TransactionKind.Deposit, 1, 1, 5⟩,
        ⟨TransactionKind.Deposit, 1, 1, 7⟩]).transactions =
      some { amount := 7, disputed := false } ∧ (7 : ℚ) ≠ 5 := by
  constructor
  · norm_num [process, handle_transaction, getClient, lookupA, insertA]
  · norm_num

/-- C1, amended: a credit on an unlocked account creates the record with the
event's amount when the transaction id is fresh; when a record already
exists, its `disputed` flag is kept but its `amount` is overwritten with the
new event's amount (last writer wins, not first). -/
theorem C1_theorem (s : State) (c : ClientId) (t : TransactionId) (a : ℚ)
    (h : (getClient s c).locked = false) :
    (∀ r : Transaction, lookupA t s.transactions = some r →
        lookupA t (handle_transaction s ⟨TransactionKind.Deposit, c, t, a⟩).transactions =
          some { amount := a, disputed := r.disputed }) ∧
    (lookupA t s.transactions = none →
        lookupA t (handle_transaction s ⟨TransactionKind.Deposit, c, t, a⟩).transactions =
          some { amount := a, disputed := false }) := by
  constructor
  · intro r hr
    simp only [handle_transaction, h, Bool.false_eq_true, if_false, hr, Option.getD_some]
    rw [lookupA_insertA_self]
  · intro hr
    simp only [handle_transaction, h, Bool.false_eq_true, if_false, hr, Option.getD_none]
    rw [lookupA_insertA_self]

/-- C1, witness: both branches of `C1_theorem` at concrete inputs. -/
theorem C1_witness :
    lookupA 1 (handle_transaction ⟨[], [(1, { amount := 5, disputed := true })]⟩
        ⟨TransactionKind.Deposit, 1, 1, 7⟩).transactions =
      some { amount := 7, disputed := true } ∧
    lookupA 2 (handle_transaction ⟨[], []⟩
        ⟨TransactionKind.Deposit, 1, 2, 7⟩).transactions =
      some { amount := 7, disputed := false } :=
  ⟨(C1_theorem ⟨[], [(1, { amount := 5, disputed := true })]⟩ 1 1 7 rfl).1
      { amount := 5, disputed := true } rfl,
   (C1_theorem ⟨[], []⟩ 1 2 7 rfl).2 rfl⟩

/-- C2: a withdrawal on an unlocked account subtracts the amount from
`available` when that leaves `available` non-negative, and otherwise is a
silent no-op leaving the whole account (and the transaction map) unchanged. -/
theorem C2_theorem (s : State) (c : ClientId) (t : TransactionId) (a : ℚ)
    (h : (getClient s c).locked = false) :
    ((getClient s c).available - a < 0 →
        getClient (handle_transaction s ⟨TransactionKind.Withdrawal, c, t, a⟩) c =
            getClient s c ∧
          (handle_transaction s ⟨TransactionKind.Withdrawal, c, t, a⟩).transactions =
            s.transactions) ∧
    (0 ≤ (getClient s c).available - a →
        getClient (handle_transaction s ⟨TransactionKind.Withdrawal, c, t, a⟩) c =
            { getClient s c with available := (getClient s c).available - a } ∧
          (handle_transaction s ⟨TransactionKind.Withdrawal, c, t, a⟩).transactions =
            s.transactions) := by
  constructor
  · intro hneg
    simp only [handle_transaction, h, Bool.false_eq_true, if_false, if_pos hneg]
    exact ⟨getClient_insertA_self s c _ _, trivial⟩
  · intro hpos
    have hnn : ¬((getClient s c).available - a < 0) := not_lt.mpr hpos
    simp only [handle_transaction, h, Bool.false_eq_true, if_false, if_neg hnn]
    exact ⟨getClient_insertA_self s c _ _, trivial⟩

/-- C2, witness: withdrawing 5 from a fresh (zero-balance) account is
rejected and changes nothing. -/
theorem C2_witness :
    getClient (handle_transaction ⟨[], []⟩ ⟨TransactionKind.Withdrawal, 1, 1, 5⟩) 1 =
        getClient ⟨[], []⟩ 1 ∧
    (handle_transaction ⟨[], []⟩ ⟨TransactionKind.Withdrawal, 1, 1, 5⟩).transactions =
        (⟨[], []⟩ : State).transactions :=
  (C2_theorem ⟨[], []⟩ 1 1 5 rfl).1 (by norm_num [getClient, lookupA])

theorem handle_dispute_applies (s : State) (c : ClientId) (t : TransactionId)
    (a : ℚ) (r : Transaction) (hr : lookupA t s.transactions = some r)
    (hl : (getClient s c).locked = false) (hd : r.disputed = false) :
    handle_transaction s ⟨TransactionKind.Dispute, c, t, a⟩ =
      ⟨insertA c (Client.mk ((getClient s c).available - r.amount)
          ((getClient s c).held + r.amount) (getClient s c).locked) s.clients,
        insertA t (Transaction.mk r.amount true) s.transactions⟩ := by
  simp only [handle_transaction, hr, hl, hd, Bool.not_false, Bool.and_self, if_true]

theorem handle_resolve_applies (s : State) (c : ClientId) (t : TransactionId)
    (a : ℚ) (r : Transaction) (hr : lookupA t s.transactions = some r)
    (hl : (getClient s c).locked = false) (hd : r.disputed = true) :
    handle_transaction s ⟨TransactionKind.Resolve, c, t, a⟩ =
      ⟨insertA c (Client.mk ((getClient s c).available + r.amount)
          ((getClient s c).held - r.amount) (getClient s c).locked) s.clients,
        insertA t (Transaction.mk r.amount false) s.transactions⟩ := by
  simp only [handle_transaction, hr, hl, hd, Bool.not_false, Bool.true_and, if_true]

theorem handle_chargeback_applies (s : State) (c : ClientId) (t : TransactionId)
    (a : ℚ) (r : Transaction) (hr : lookupA t s.transactions = some r)
    (hl : (getClient s c).locked = false) (hd : r.disputed = true) :
    handle_transaction s ⟨TransactionKind.Chargeback, c, t, a⟩ =
      ⟨insertA c (Client.mk (getClient s c).available
          ((getClient s c).held - r.amount) true) s.clients,
        s.transactions⟩ := by
  simp only [handle_transaction, hr, hl, hd, Bool.not_false, Bool.true_and, if_true]

theorem handle_dispute_noop (s : State) (c : ClientId) (t : TransactionId)
    (a : ℚ)
    (h : lookupA t s.transactions = none ∨ (getClient s c).locked = true ∨
        ∃ r, lookupA t s.transactions = some r ∧ r.disputed = true) :
    handle_transaction s ⟨TransactionKind.Dispute, c, t, a⟩ =
      ⟨insertA c (getClient s c) s.clients, s.transactions⟩ := by
  rcases h with h | h | ⟨r, hr, hd⟩
  · simp only [handle_transaction, h]
  · cases hlk : lookupA t s.transactions with
    | none => simp only [handle_transaction, hlk]
    | some r =>
      simp only [handle_transaction, hlk, h, Bool.not_true, Bool.false_and,
        Bool.false_eq_true, if_false]
  · simp only [handle_transaction, hr, hd, Bool.not_true, Bool.and_false,
      Bool.false_eq_true, if_false]

theorem handle_chargeback_noop (s : State) (c : ClientId) (t : TransactionId)
    (a : ℚ)
    (h : lookupA t s.transactions = none ∨ (getClient s c).locked = true ∨
        ∃ r, lookupA t s.transactions = some r ∧ r.disputed = false) :
    handle_transaction s ⟨TransactionKind.Chargeback, c, t, a⟩ =
      ⟨insertA c (getClient s c) s.clients, s.transactions⟩ := by
  rcases h with h | h | ⟨r, hr, hd⟩
  · simp only [handle_transaction, h]
  · cases hlk : lookupA t s.transactions with
    | none => simp only [handle_transaction, hlk]
    | some r =>
      simp only [handle_transaction, hlk, h, Bool.not_true, Bool.false_and,
        Bool.false_eq_true, if_false]
  · simp only [handle_transaction, hr, hd, Bool.and_false, Bool.false_eq_true,
      if_false]

/-- C4: when a transaction record exists for `t`, is not disputed, and the
referencing account is unlocked, a dispute immediately followed by a resolve
for the same account and `t` is a net no-op: the account returns exactly to
its prior balances and the record's `disputed` flag returns to false. -/
theorem C4_theorem (s : State) (c : ClientId) (t : TransactionId) (a1 a2 : ℚ)
    (r : Transaction) (hr : lookupA t s.transactions = some r)
    (hd : r.disputed = false) (hl : (getClient s c).locked = false) :
    (getClient (handle_transaction (handle_transaction s
        ⟨TransactionKind.Dispute, c, t, a1⟩) ⟨TransactionKind.Resolve, c, t, a2⟩) c).held =
      (getClient s c).held ∧
    (getClient (handle_transaction (handle_transaction s
        ⟨TransactionKind.Dispute, c, t, a1⟩) ⟨TransactionKind.Resolve, c, t, a2⟩) c).available =
      (getClient s c).available ∧
    lookupA t (handle_transaction (handle_transaction s
        ⟨TransactionKind.Dispute, c, t, a1⟩) ⟨TransactionKind.Resolve, c, t, a2⟩).transactions =
      some (Transaction.mk r.amount false) := by
  have h1 := handle_dispute_applies s c t a1 r hr hl hd
  rw [h1]
  have hg1 : getClient (⟨insertA c (Client.mk ((getClient s c).available - r.amount)
      ((getClient s c).held + r.amount) (getClient s c).locked) s.clients,
      insertA t (Transaction.mk r.amount true) s.transactions⟩ : State) c =
      Client.mk ((getClient s c).available - r.amount)
        ((getClient s c).held + r.amount) (getClient s c).locked :=
    getClient_insertA_self s c _ _
  have h2 := handle_resolve_applies
    (⟨insertA c (Client.mk ((getClient s c).available - r.amount)
        ((getClient s c).held + r.amount) (getClient s c).locked) s.clients,
      insertA t (Transaction.mk r.amount true) s.transactions⟩ : State)
    c t a2 (Transaction.mk r.amount true)
    (lookupA_insertA_self t _ _) (by rw [hg1]; exact hl) rfl
  rw [h2]
  refine ⟨?_, ?_, ?_⟩
  · rw [getClient_insertA_self, hg1]
    simp only
    ring
  · rw [getClient_insertA_self, hg1]
    simp only
    ring
  · simp only [lookupA_insertA_self]

/-- C4, witness: `C4_theorem` at a concrete state holding an undisputed
record for transaction 1 with amount 5. -/
theorem C4_witness :
    (getClient (handle_transaction (handle_transaction
        ⟨[], [(1, Transaction.mk 5 false)]⟩ ⟨TransactionKind.Dispute, 1, 1, 0⟩)
        ⟨TransactionKind.Resolve, 1, 1, 0⟩) 1).held =
      (getClient ⟨[], [(1, Transaction.mk 5 false)]⟩ 1).held ∧
    (getClient (handle_transaction (handle_transaction
        ⟨[], [(1, Transaction.mk 5 false)]⟩ ⟨TransactionKind.Dispute, 1, 1, 0⟩)
        ⟨TransactionKind.Resolve, 1, 1, 0⟩) 1).available =
      (getClient ⟨[], [(1, Transaction.mk 5 false)]⟩ 1).available ∧
    lookupA 1 (handle_transaction (handle_transaction
        ⟨[], [(1, Transaction.mk 5 false)]⟩ ⟨TransactionKind.Dispute, 1, 1, 0⟩)
        ⟨TransactionKind.Resolve, 1, 1, 0⟩).transactions =
      some (Transaction.mk 5 false) :=
  C4_theorem ⟨[], [(1, Transaction.mk 5 false)]⟩ 1 1 0 0
    (Transaction.mk 5 false) rfl rfl rfl

/-- C5: a chargeback whose record exists and is disputed, on an unlocked
account, subtracts the record's amount from `held`, locks the account, leaves
`available` untouched and the record still present (and still disputed);
when no record exists, the account is locked, or the record is not disputed,
no account balances, locked flags, or records change. -/
theorem C5_theorem (s : State) (c : ClientId) (t : TransactionId) (a : ℚ) :
    (∀ r : Transaction, lookupA t s.transactions = some r → r.disputed = true →
        (getClient s c).locked = false →
        (getClient (handle_transaction s ⟨TransactionKind.Chargeback, c, t, a⟩) c).held =
            (getClient s c).held - r.amount ∧
        (getClient (handle_transaction s ⟨TransactionKind.Chargeback, c, t, a⟩) c).locked =
            true ∧
        (getClient (handle_transaction s ⟨TransactionKind.Chargeback, c, t, a⟩) c).available =
            (getClient s c).available ∧
        lookupA t (handle_transaction s ⟨TransactionKind.Chargeback, c, t, a⟩).transactions =
            some r) ∧
    ((lookupA t s.transactions = none ∨ (getClient s c).locked = true ∨
        (∃ r, lookupA t s.transactions = some r ∧ r.disputed = false)) →
        (∀ x, getClient (handle_transaction s ⟨TransactionKind.Chargeback, c, t, a⟩) x =
            getClient s x) ∧
        (handle_transaction s ⟨TransactionKind.Chargeback, c, t, a⟩).transactions =
            s.transactions) := by
  constructor
  · intro r hr hd hl
    have h1 := handle_chargeback_applies s c t a r hr hl hd
    rw [h1]
    have hg : getClient (⟨insertA c (Client.mk (getClient s c).available
        ((getClient s c).held - r.amount) true) s.clients, s.transactions⟩ : State) c =
        Client.mk (getClient s c).available ((getClient s c).held - r.amount) true :=
      getClient_insertA_self s c _ _
    rw [hg]
    exact ⟨rfl, rfl, rfl, hr⟩
  · intro h
    have h1 := handle_chargeback_noop s c t a h
    rw [h1]
    exact ⟨getClient_insert_same s c _, rfl⟩

/-- C5, witness: `C5_theorem`'s effect branch on a concrete state with a
disputed record of amount 5, and its no-op branch on the empty state. -/
theorem C5_witness :
    ((getClient (handle_transaction ⟨[], [(1, Transaction.mk 5 true)]⟩
        ⟨TransactionKind.Chargeback, 1, 1, 0⟩) 1).held =
      (getClient ⟨[], [(1, Transaction.mk 5 true)]⟩ 1).held - 5 ∧
    (getClient (handle_transaction ⟨[], [(1, Transaction.mk 5 true)]⟩
        ⟨TransactionKind.Chargeback, 1, 1, 0⟩) 1).locked = true ∧
    (getClient (handle_transaction ⟨[], [(1, Transaction.mk 5 true)]⟩
        ⟨TransactionKind.Chargeback, 1, 1, 0⟩) 1).available =
      (getClient ⟨[], [(1, Transaction.mk 5 true)]⟩ 1).available ∧
    lookupA 1 (handle_transaction ⟨[], [(1, Transaction.mk 5 true)]⟩
        ⟨TransactionKind.Chargeback, 1, 1, 0⟩).transactions =
      some (Transaction.mk 5 true)) ∧
    ((∀ x, getClient (handle_transaction ⟨[], []⟩
        ⟨TransactionKind.Chargeback, 1, 1, 0⟩) x = getClient ⟨[], []⟩ x) ∧
    (handle_transaction ⟨[], []⟩ ⟨TransactionKind.Chargeback, 1, 1, 0⟩).transactions =
      (⟨[], []⟩ : State).transactions) :=
  ⟨(C5_theorem ⟨[], [(1, Transaction.mk 5 true)]⟩ 1 1 0).1
      (Transaction.mk 5 true) rfl rfl rfl,
   (C5_theorem ⟨[], []⟩ 1 1 0).2 (Or.inl rfl)⟩

/-- C7, counterexample to the claim as stated: disputing an unknown
transaction id from the empty state does change the state — the referenced
account entry is created. -/
theorem C7_counterexample :
    handle_transaction ⟨[], []⟩ ⟨TransactionKind.Dispute, 1, 1, 0⟩ ≠
      (⟨[], []⟩ : State) := by
  simp only [handle_transaction, lookupA, ne_eq, State.mk.injEq, insertA]
  intro h
  exact absurd h.1 (by simp)

/-- C7, amended: a dispute with no matching record, or whose record is
already disputed, changes no account balances, no locked flag, and no
transaction record; its only effect is creating the referenced account entry
(zero balances, unlocked) if it was absent. -/
theorem C7_theorem (s : State) (c : ClientId) (t : TransactionId) (a : ℚ)
    (h : lookupA t s.transactions = none ∨
        ∃ r, lookupA t s.transactions = some r ∧ r.disputed = true) :
    (∀ x, getClient (handle_transaction s ⟨TransactionKind.Dispute, c, t, a⟩) x =
        getClient s x) ∧
    (handle_transaction s ⟨TransactionKind.Dispute, c, t, a⟩).transactions =
        s.transactions ∧
    (handle_transaction s ⟨TransactionKind.Dispute, c, t, a⟩).clients =
        insertA c (getClient s c) s.clients := by
  have h1 := handle_dispute_noop s c t a (by tauto)
  rw [h1]
  exact ⟨getClient_insert_same s c _, rfl, rfl⟩

/-- C7, witness: `C7_theorem` applied to a dispute of an unrecorded
transaction id on the empty state. -/
theorem C7_witness :
    (∀ x, getClient (handle_transaction ⟨[], []⟩
        ⟨TransactionKind.Dispute, 1, 1, 0⟩) x = getClient ⟨[], []⟩ x) ∧
    (handle_transaction ⟨[], []⟩ ⟨TransactionKind.Dispute, 1, 1, 0⟩).transactions =
        (⟨[], []⟩ : State).transactions ∧
    (handle_transaction ⟨[], []⟩ ⟨TransactionKind.Dispute, 1, 1, 0⟩).clients =
        insertA 1 (getClient ⟨[], []⟩ 1) ([] : List (ClientId × Client)) :=
  C7_theorem ⟨[], []⟩ 1 1 0 (Or.inl rfl)

theorem handle_deposit_unlocked (s : State) (c : ClientId) (t : TransactionId)
    (a : ℚ) (hl : (getClient s c).locked = false) :
    handle_transaction s ⟨TransactionKind.Deposit, c, t, a⟩ =
      ⟨insertA c (Client.mk ((getClient s c).available + a)
          (getClient s c).held (getClient s c).locked) s.clients,
        insertA t (Transaction.mk a ((lookupA t s.transactions).getD {}).disputed)
          s.transactions⟩ := by
  simp only [handle_transaction, hl, Bool.false_eq_true, if_false]

theorem handle_withdrawal_applied (s : State) (c : ClientId) (t : TransactionId)
    (a : ℚ) (hl : (getClient s c).locked = false)
    (hge : ¬((getClient s c).available - a < 0)) :
    handle_transaction s ⟨TransactionKind.Withdrawal, c, t, a⟩ =
      ⟨insertA c (Client.mk ((getClient s c).available - a)
          (getClient s c).held (getClient s c).locked) s.clients,
        s.transactions⟩ := by
  simp only [handle_transaction, hl, Bool.false_eq_true, if_false, if_neg hge]

theorem handle_withdrawal_rejected (s : State) (c : ClientId) (t : TransactionId)
    (a : ℚ) (hl : (getClient s c).locked = false)
    (hlt : (getClient s c).available - a < 0) :
    handle_transaction s ⟨TransactionKind.Withdrawal, c, t, a⟩ =
      ⟨insertA c (getClient s c) s.clients, s.transactions⟩ := by
  simp only [handle_transaction, hl, Bool.false_eq_true, if_false, if_pos hlt]

/-- Sum of the amounts of the credit (`Deposit`) events in a list of rows. -/
def creditSum : List InputRow → ℚ
  | [] => 0
  | r :: rs =>
    (match r.kind with
      | TransactionKind.Deposit => r.amount
      | _ => 0) + creditSum rs

/-- Sum of the amounts of the debit (`Withdrawal`) events that are actually
applied — i.e. not rejected for a locked account or for driving `available`
negative — when the rows are processed in order starting from `s`. -/
def appliedDebitSum (s : State) : List InputRow → ℚ
  | [] => 0
  | r :: rs =>
    (match r.kind with
      | TransactionKind.Withdrawal =>
        if (getClient s r.client_id).locked then 0
        else if (getClient s r.client_id).available - r.amount < 0 then 0
        else r.amount
      | _ => 0) + appliedDebitSum (handle_transaction s r) rs

theorem process_balance_aux (rows : List InputRow) (c : ClientId) (s : State)
    (hk : ∀ r ∈ rows, (r.kind = TransactionKind.Deposit ∨
        r.kind = TransactionKind.Withdrawal) ∧ r.client_id = c)
    (hl : (getClient s c).locked = false) :
    (getClient (process s rows) c).available + (getClient (process s rows) c).held =
      (getClient s c).available + (getClient s c).held +
        creditSum rows - appliedDebitSum s rows := by
  induction rows generalizing s with
  | nil =>
    simp only [process, creditSum, appliedDebitSum]
    ring
  | cons r rs ih =>
    have hkrest : ∀ r' ∈ rs, (r'.kind = TransactionKind.Deposit ∨
        r'.kind = TransactionKind.Withdrawal) ∧ r'.client_id = c :=
      fun r' h' => hk r' (List.mem_cons_of_mem r h')
    have hhead := hk r (List.mem_cons_self r rs)
    obtain ⟨k, cid, t, a⟩ := r
    obtain ⟨hkind, hcid⟩ := hhead
    simp only at hkind hcid
    subst cid
    rcases hkind with hkind | hkind
    · subst hkind
      have hdep := handle_deposit_unlocked s c t a hl
      have hl' : (getClient (handle_transaction s
          ⟨TransactionKind.Deposit, c, t, a⟩) c).locked = false := by
        rw [hdep, getClient_insertA_self]
        exact hl
      simp only [process, creditSum, appliedDebitSum]
      rw [ih _ hkrest hl', hdep, getClient_insertA_self]
      simp only
      ring
    · subst hkind
      by_cases hlt : (getClient s c).available - a < 0
      · have hw := handle_withdrawal_rejected s c t a hl hlt
        have hl' : (getClient (handle_transaction s
            ⟨TransactionKind.Withdrawal, c, t, a⟩) c).locked = false := by
          rw [hw, getClient_insertA_self]
          exact hl
        simp only [process, creditSum, appliedDebitSum, hl, Bool.false_eq_true,
          if_false, if_pos hlt]
        rw [ih _ hkrest hl', hw, getClient_insertA_self]
        ring
      · have hw := handle_withdrawal_applied s c t a hl hlt
        have hl' : (getClient (handle_transaction s
            ⟨TransactionKind.Withdrawal, c, t, a⟩) c).locked = false := by
          rw [hw, getClient_insertA_self]
          exact hl
        simp only [process, creditSum, appliedDebitSum, hl, Bool.false_eq_true,
          if_false, if_neg hlt]
        rw [ih _ hkrest hl', hw, getClient_insertA_self]
        simp only
        ring

/-- C3: for a stream of deposits and withdrawals on a single account,
starting from the initial empty state, `available + held` at the end equals
the sum of all credit amounts minus the sum of the applied (non-rejected)
debit amounts. -/
theorem C3_theorem (rows : List InputRow) (c : ClientId)
    (hk : ∀ r ∈ rows, (r.kind = TransactionKind.Deposit ∨
        r.kind = TransactionKind.Withdrawal) ∧ r.client_id = c) :
    (getClient (process ⟨[], []⟩ rows) c).available +
        (getClient (process ⟨[], []⟩ rows) c).held =
      creditSum rows - appliedDebitSum ⟨[], []⟩ rows := by
  have h := process_balance_aux rows c ⟨[], []⟩ hk rfl
  simpa [getClient, lookupA] using h

/-- C3, witness: a deposit of 5 then a rejected withdrawal of 7 on account 1
satisfy the balance identity. -/
theorem C3_witness :
    (getClient (process ⟨[], []⟩ [⟨TransactionKind.Deposit, 1, 1, 5⟩,
        ⟨TransactionKind.Withdrawal, 1, 2, 7⟩]) 1).available +
        (getClient (process ⟨[], []⟩ [⟨TransactionKind.Deposit, 1, 1, 5⟩,
          ⟨TransactionKind.Withdrawal, 1, 2, 7⟩]) 1).held =
      creditSum [⟨TransactionKind.Deposit, 1, 1, 5⟩,
          ⟨TransactionKind.Withdrawal, 1, 2, 7⟩] -
        appliedDebitSum ⟨[], []⟩ [⟨TransactionKind.Deposit, 1, 1, 5⟩,
          ⟨TransactionKind.Withdrawal, 1, 2, 7⟩] :=
  C3_theorem [⟨TransactionKind.Deposit, 1, 1, 5⟩,
    ⟨TransactionKind.Withdrawal, 1, 2, 7⟩] 1 (by simp)

/-- C6: once an account is locked, any further stream of events (of any of
the five kinds, whether or not it references that account) leaves the
account's `available`, `held` and `locked` fields unchanged; in particular
the account is never unlocked. -/
theorem C6_theorem (s : State) (c : ClientId) (rows : List InputRow)
    (h : (getClient s c).locked = true) :
    getClient (process s rows) c = getClient s c := by
  induction rows generalizing s with
  | nil => rfl
  | cons r rs ih =>
    have hstep : getClient (handle_transaction s r) c = getClient s c := by
      by_cases hc : c = r.client_id
      · rw [hc] at h ⊢
        exact getClient_handle_locked s r h
      · exact getClient_handle_ne s r c hc
    have h' : (getClient (handle_transaction s r) c).locked = true := by
      rw [hstep]
      exact h
    simp only [process]
    rw [ih _ h', hstep]

/-- C6, witness: a locked account with zero balances is untouched by a
subsequent deposit referencing it. -/
theorem C6_witness :
    getClient (process ⟨[(1, Client.mk 0 0 true)], []⟩
        [⟨TransactionKind.Deposit, 1, 1, 5⟩]) 1 =
      getClient ⟨[(1, Client.mk 0 0 true)], []⟩ 1 :=
  C6_theorem ⟨[(1, Client.mk 0 0 true)], []⟩ 1
    [⟨TransactionKind.Deposit, 1, 1, 5⟩] rfl

/-- C8: dispute-family events do not validate the stated account id against
the account that made the deposit: after `deposit(client 1, tx 1, 5)`, a
dispute naming client 2 (≠ 1) with tx 1 is applied to client 2's balances
(held +5, available -5) and tx 1 is marked disputed. -/
theorem C8_theorem :
    (getClient (process ⟨[], []⟩ [⟨TransactionKind.Deposit, 1, 1, 5⟩,
        ⟨TransactionKind.Dispute, 2, 1, 0⟩]) 2).held = 5 ∧
    (getClient (process ⟨[], []⟩ [⟨TransactionKind.Deposit, 1, 1, 5⟩,
        ⟨TransactionKind.Dispute, 2, 1, 0⟩]) 2).available = -5 ∧
    lookupA 1 (process ⟨[], []⟩ [⟨TransactionKind.Deposit, 1, 1, 5⟩,
        ⟨TransactionKind.Dispute, 2, 1, 0⟩]).transactions =
      some (Transaction.mk 5 true) ∧
    (2 : ClientId) ≠ 1 := by
  refine ⟨?_, ?_, ?_, by decide⟩ <;>
    norm_num [process, handle_transaction, getClient, lookupA, insertA]

/-- C10: one event only touches the account it names and the transaction
record it names — any other account and any other record are unchanged. -/
theorem C10_theorem (s : State) (e : InputRow) (c : ClientId)
    (t : TransactionId) (hc : c ≠ e.client_id) (ht : t ≠ e.txn_id) :
    getClient (handle_transaction s e) c = getClient s c ∧
    lookupA t (handle_transaction s e).transactions = lookupA t s.transactions :=
  ⟨getClient_handle_ne s e c hc, lookupA_handle_txn_ne s e t ht⟩

/-- C10, witness: a deposit by client 1 under tx 1 leaves client 2 and tx 2
untouched. -/
theorem C10_witness :
    getClient (handle_transaction ⟨[], []⟩ ⟨TransactionKind.Deposit, 1, 1, 5⟩) 2 =
        getClient ⟨[], []⟩ 2 ∧
    lookupA 2 (handle_transaction ⟨[], []⟩
        ⟨TransactionKind.Deposit, 1, 1, 5⟩).transactions =
      lookupA 2 (⟨[], []⟩ : State).transactions :=
  C10_theorem ⟨[], []⟩ ⟨TransactionKind.Deposit, 1, 1, 5⟩ 2 2
    (by decide) (by decide)

theorem process_clients_sorted (rows : List InputRow) (s : State)
    (hs : keysSorted s.clients) : keysSorted (process s rows).clients := by
  induction rows generalizing s with
  | nil => exact hs
  | cons r rs ih =>
    simp only [process]
    apply ih
    obtain ⟨v, hv⟩ := handle_clients_shape s r
    rw [hv]
    exact insertA_keysSorted _ _ _ hs

theorem process_clients_mem (rows : List InputRow) (s : State) (c : ClientId) :
    (lookupA c (process s rows).clients).isSome = true ↔
      (lookupA c s.clients).isSome = true ∨ ∃ r ∈ rows, r.client_id = c := by
  induction rows generalizing s with
  | nil => simp [process]
  | cons r rs ih =>
    simp only [process]
    rw [ih]
    have hstep : (lookupA c (handle_transaction s r).clients).isSome = true ↔
        (c = r.client_id ∨ (lookupA c s.clients).isSome = true) := by
      obtain ⟨v, hv⟩ := handle_clients_shape s r
      rw [hv]
      by_cases h : c = r.client_id
      · rw [h, lookupA_insertA_self]
        simp [h]
      · rw [lookupA_insertA_ne _ _ _ _ h]
        simp [h]
    rw [hstep]
    simp only [List.mem_cons, exists_eq_or_imp]
    have hcc : (c = r.client_id) ↔ (r.client_id = c) := eq_comm
    rw [hcc]
    tauto

/-- C9: processing any input from the initial state yields one output row
per account id referenced in the input (and no others), the rows in strictly
ascending order of account id, and each row's `total` equal to its
`available + held`. -/
theorem C9_theorem (rows : List InputRow) :
    (∀ c : ClientId, (∃ p ∈ write_output (process ⟨[], []⟩ rows), p.client = c) ↔
        ∃ r ∈ rows, r.client_id = c) ∧
    List.Pairwise (fun x y : ClientId => x < y)
      ((write_output (process ⟨[], []⟩ rows)).map OutputRow.client) ∧
    ∀ p ∈ write_output (process ⟨[], []⟩ rows), p.total = p.available + p.held := by
  refine ⟨?_, ?_, ?_⟩
  · intro c
    have hmem := process_clients_mem rows ⟨[], []⟩ c
    simp only [lookupA, Option.isSome_none, Bool.false_eq_true, false_or] at hmem
    rw [← hmem, lookupA_isSome_iff]
    simp only [write_output, List.mem_map, Prod.exists]
    constructor
    · rintro ⟨p, ⟨a, b, hab, rfl⟩, hc⟩
      obtain rfl : a = c := hc
      exact ⟨a, b, hab, rfl⟩
    · rintro ⟨a, b, hab, hc⟩
      obtain rfl : a = c := hc
      refine ⟨_, ⟨a, b, hab, rfl⟩, rfl⟩
  · have hsorted := process_clients_sorted rows ⟨[], []⟩ (by simp [keysSorted])
    simp only [write_output, List.map_map]
    rw [List.pairwise_map]
    exact hsorted
  · intro p hp
    simp only [write_output, List.mem_map] at hp
    obtain ⟨q, hq, rfl⟩ := hp
    rfl
